import Mathlib

/-!
Shallow embedding of the Source of Truth Consensus algorithm
(`src/algorithms/consensus.py`, class `SourceOfTruthConsensus`).

Modelling conventions:
* Python floats that carry scores, weights and timestamps are modelled as `ℚ`
  (every score-level operation of the program is exact decimal arithmetic);
  the one transcendental operation, the exponential time decay `2 ** x`, is
  modelled over `ℝ` with `Real.rpow`.
* Python dictionaries with optional keys become structures with `Option`
  fields; reading a required key from a dict (`source['content']`) is
  modelled in the `Except PyError` monad, mirroring `KeyError`.
* The NLTK English stop-word set is external data (not part of the
  repository), so every text-processing definition is parametric in a
  `stop : List String` argument.
-/

namespace BabelConsensus

/-- The `ConsensusState` enum of `consensus.py` (lines 21-28). -/
inductive ConsensusState where
  | emerging
  | provisional
  | established
  | contested
  | revoked
  | insufficient
deriving DecidableEq, Repr

/-- Python exceptions that the consensus engine can raise internally. -/
inductive PyError where
  | valueError (msg : String)
  | keyError (key : String)
deriving DecidableEq, Repr

/-- Threshold `self.validation_thresholds['high']` (line 61). -/
def validation_threshold_high : ℚ := 8/10

/-- Threshold `self.validation_thresholds['medium']` (line 62). -/
def validation_threshold_medium : ℚ := 6/10

/-- Threshold `self.validation_thresholds['low']` (line 63). -/
def validation_threshold_low : ℚ := 4/10

/-- Threshold `self.similarity_threshold` (line 67). -/
def similarity_threshold : ℚ := 7/10

/-- Constant `self.half_life_days` (line 70). -/
def half_life_days : ℚ := 7

/-- The `self.source_weights` lookup with default `0.5`
(`self.source_weights.get(..., 0.5)`, lines 50-57 and 205/234). -/
def source_weights (source_type : String) : ℚ :=
  if source_type = "official_docs" then 1
  else if source_type = "research_paper" then 9/10
  else if source_type = "technical_blog" then 8/10
  else if source_type = "community_wiki" then 7/10
  else if source_type = "forum_post" then 6/10
  else if source_type = "social_media" then 4/10
  else 1/2

/-- Embeds `_determine_consensus_state` (lines 83-104).  The Python function
recurses with `previous_score=None` when the previous score was below the
high threshold; the recursion is unfolded into the local `no_history`
value, which is exactly the `previous_score is None` branch. -/
def determine_consensus_state (current_score : ℚ)
    (previous_score : Option ℚ) : ConsensusState :=
  let no_history : ConsensusState :=
    if current_score ≥ validation_threshold_high then .established
    else if current_score ≥ validation_threshold_medium then .provisional
    else if current_score ≥ validation_threshold_low then .emerging
    else .insufficient
  match previous_score with
  | none => no_history
  | some prev =>
      if prev ≥ validation_threshold_high then
        if current_score < validation_threshold_medium then .contested
        else if current_score < validation_threshold_low then .revoked
        else .established
      else no_history

/-- Payload of `content.get('analysis', {}).get('evidence', {})`:
the nested `evidence` dict with its optional `strength_score`. -/
structure Evidence where
  strength_score : Option ℚ
deriving DecidableEq, Repr

/-- The optional `analysis` dict attached to a source's content. -/
structure Analysis where
  quality_score : Option ℚ
  evidence : Option Evidence
deriving DecidableEq, Repr

/-- The `content` dict of a source: optional `text` and optional `analysis`. -/
structure Content where
  text : Option String
  analysis : Option Analysis
deriving DecidableEq, Repr

/-- One element of the `sources` list.  Every key that the code reads is an
`Option` field; `none` models the key being absent from the Python dict. -/
structure Source where
  source : Option String
  content : Option Content
  timestamp : Option ℚ
  user_id : Option String
  vote_value : Option ℚ
deriving DecidableEq, Repr

/-- Access `source['content']`: raises `KeyError('content')` when the key is absent. -/
def Source.getContent (s : Source) : Except PyError Content :=
  match s.content with
  | some c => .ok c
  | none => .error (.keyError "content")

/-- Access `source['source']`: raises `KeyError('source')` when the key is absent. -/
def Source.getSourceType (s : Source) : Except PyError String :=
  match s.source with
  | some t => .ok t
  | none => .error (.keyError "source")

/-- Embeds `re.findall(r'\b\w+\b', text.lower())`: lower-case the text and split it
into maximal runs of word characters (alphanumeric or underscore).  The
string is processed as its character sequence. -/
def tokenize (text : String) : List String :=
  (((text.data.map Char.toLower).splitOnP
      (fun c => !(c.isAlphanum || c == '_'))).filter
    (fun w => !w.isEmpty)).map (fun l => String.mk l)

/-- First-occurrence deduplication, matching Python dict-key insertion order. -/
def uniqueFirst (l : List String) : List String :=
  l.foldl (fun acc w => if acc.contains w then acc else acc ++ [w]) []

/-- Embeds `_extract_key_terms` (lines 254-272): tokenize, drop stop words and short
words, count frequencies (dict keys in first-occurrence order), stable-sort
by descending frequency, take the top 10. -/
def extract_key_terms (stop : List String) (text : String) : List String :=
  let words := (tokenize text).filter
    (fun w => !stop.contains w && decide (w.length > 2))
  let term_freq : String → ℕ := fun t => (words.filter (fun w => w == t)).length
  let sorted_terms :=
    (uniqueFirst words).insertionSort (fun a b => term_freq b ≤ term_freq a)
  sorted_terms.take 10

/-- The `fact_indicators` list (lines 280-283). -/
def fact_indicators : List String :=
  ["is", "are", "was", "were", "has", "have", "can", "will", "must", "should"]

/-- Python `str.strip()`: drop leading and trailing whitespace characters. -/
def stripWhitespace (l : List Char) : List Char :=
  ((l.dropWhile Char.isWhitespace).reverse.dropWhile Char.isWhitespace).reverse

/-- Embeds `_extract_facts` (lines 274-292): split on sentence punctuation
(`re.split(r'[.!?]+')` yields, after the empty pieces are stripped and
dropped, the same sentences as splitting at every single `.!?` character),
keep sentences whose lower-cased words contain a fact-indicator verb. -/
def extract_facts (text : String) : List String :=
  let sentences := (((text.data.splitOnP
      (fun c => c == '.' || c == '!' || c == '?')).map
    stripWhitespace).filter (fun s => !s.isEmpty)).map (fun l => String.mk l)
  sentences.filter (fun s => fact_indicators.any (fun ind => (tokenize s).contains ind))

/-- The stop-word-free lower-cased word set of a fact string
(`set(re.findall(...)) - self.stop_words`, lines 349-352). -/
def word_set (stop : List String) (s : String) : Finset String :=
  ((tokenize s).filter (fun w => !stop.contains w)).toFinset

/-- Embeds `_calculate_fact_similarity` (lines 346-361): Jaccard similarity of the
two stop-word-free word sets, or `0.0` when either set is empty. -/
def calculate_fact_similarity (stop : List String) (fact1 fact2 : String) : ℚ :=
  let words1 := word_set stop fact1
  let words2 := word_set stop fact2
  if words1 = ∅ ∨ words2 = ∅ then 0
  else ((words1 ∩ words2).card : ℚ) / ((words1 ∪ words2).card : ℚ)

/-- Value `term_freq[term]` of `_calculate_term_agreement`: the number of sources
whose term list contains `t` (each term counted once per source). -/
def count_sources_with_term (term_lists : List (List String)) (t : String) : ℕ :=
  (term_lists.filter (fun ts => ts.contains t)).length

/-- The `agreement_scores` list of `_calculate_term_agreement` (lines
307-312): one fraction per distinct term, kept when it reaches the
similarity threshold.  The aggregate does not depend on the enumeration
order of the distinct terms. -/
def term_agreement_scores (term_lists : List (List String)) : List ℚ :=
  ((term_lists.flatten.dedup).map
    (fun t => (count_sources_with_term term_lists t : ℚ) /
      term_lists.length)).filter
    (fun a => decide (a ≥ similarity_threshold))

/-- Embeds `_calculate_term_agreement` (lines 294-317). -/
def calculate_term_agreement (term_lists : List (List String)) : ℚ :=
  if term_lists = [] then 0
  else if term_agreement_scores term_lists = [] then 0
  else (term_agreement_scores term_lists).sum /
    (term_agreement_scores term_lists).length

/-- The `agreements` counter of `_calculate_fact_agreement` (lines
330-336): how many of the *other* sources contain at least one fact whose
similarity to `fact1` reaches the threshold. -/
def fact_agreements (stop : List String) (indexed : List (ℕ × List String))
    (i : ℕ) (fact1 : String) : ℕ :=
  ((indexed.filter (fun q => decide (q.1 ≠ i))).filter
    (fun q => q.2.any
      (fun fact2 => decide (calculate_fact_similarity stop fact1 fact2 ≥
        similarity_threshold)))).length

/-- The `agreement_scores` list of `_calculate_fact_agreement` (lines
325-339): each fact with some agreement contributes
`agreements / (total_sources - 1)`. -/
def fact_agreement_scores (stop : List String)
    (fact_lists : List (List String)) : List ℚ :=
  (fact_lists.enum.map (fun p =>
    p.2.filterMap (fun fact1 =>
      if fact_agreements stop fact_lists.enum p.1 fact1 > 0 then
        some ((fact_agreements stop fact_lists.enum p.1 fact1 : ℚ) /
          ((fact_lists.length - 1 : ℕ) : ℚ))
      else none))).flatten

/-- Embeds `_calculate_fact_agreement` (lines 319-344). -/
def calculate_fact_agreement (stop : List String)
    (fact_lists : List (List String)) : ℚ :=
  if fact_lists = [] then 0
  else if fact_agreement_scores stop fact_lists = [] then 0
  else (fact_agreement_scores stop fact_lists).sum /
    (fact_agreement_scores stop fact_lists).length

/-- A Python `for` loop that builds a list, propagating the first raised
exception: the effectful map used by `_calculate_consensus` and
`_calculate_reliability` over their `sources` argument. -/
def exceptMapM {α β : Type} (f : α → Except PyError β) :
    List α → Except PyError (List β)
  | [] => .ok []
  | a :: as => do
    let b ← f a
    let bs ← exceptMapM f as
    .ok (b :: bs)

/-- The per-source record built in `_calculate_consensus` (lines 194-206):
key terms, facts, and the base weight of the source type.  Accessing the
`content` key happens before the `source` key, as in the Python dict
literal's evaluation order. -/
def source_info_of (stop : List String) (s : Source) :
    Except PyError (List String × List String × ℚ) := do
  let content ← s.getContent
  let text := content.text.getD ""
  let key_terms := extract_key_terms stop text
  let facts := extract_facts text
  let source_type ← s.getSourceType
  .ok (key_terms, facts, source_weights source_type)

/-- Embeds `_calculate_consensus` (lines 187-224). -/
def calculate_consensus (stop : List String) (sources : List Source) :
    Except PyError ℚ :=
  if sources = [] then .ok 0
  else do
    let source_info ← exceptMapM (source_info_of stop) sources
    let term_agreement := calculate_term_agreement (source_info.map (fun i => i.1))
    let fact_agreement :=
      calculate_fact_agreement stop (source_info.map (fun i => i.2.1))
    let weights := source_info.map (fun i => i.2.2)
    let weighted_score :=
      (4/10 * term_agreement + 6/10 * fact_agreement) * weights.sum / weights.length
    .ok (min 1 weighted_score)

/-- The per-source reliability blend of `_calculate_reliability`
(lines 232-249): `0.4 * base + 0.3 * quality + 0.3 * evidence`, with the
optional analysis fields defaulting to `0.5`. -/
def reliability_of (s : Source) : Except PyError ℚ := do
  let source_type ← s.getSourceType
  let base_reliability := source_weights source_type
  let content ← s.getContent
  let quality_score := (content.analysis.bind Analysis.quality_score).getD (1/2)
  let evidence_score :=
    ((content.analysis.bind Analysis.evidence).bind Evidence.strength_score).getD (1/2)
  .ok (4/10 * base_reliability + 3/10 * quality_score + 3/10 * evidence_score)

/-- Embeds `_calculate_reliability` (lines 226-252). -/
def calculate_reliability (sources : List Source) : Except PyError ℚ :=
  if sources = [] then .ok 0
  else do
    let reliability_scores ← exceptMapM reliability_of sources
    .ok (reliability_scores.sum / reliability_scores.length)

/-- Embeds `_calculate_temporal_weight` (lines 77-81):
`2 ** (-age / half_life)` with `age = now - timestamp` and
`half_life = half_life_days * 24 * 3600` seconds. -/
noncomputable def calculate_temporal_weight (now timestamp : ℚ) : ℝ :=
  let age : ℚ := now - timestamp
  let half_life : ℚ := half_life_days * 24 * 3600
  (2 : ℝ) ^ ((-age / half_life : ℚ) : ℝ)

/-- Embeds `_calculate_user_contribution` (lines 106-113). -/
noncomputable def calculate_user_contribution (now user_vote_timestamp : ℚ)
    (final_consensus user_vote_value : ℚ) : ℝ :=
  let temporal_weight := calculate_temporal_weight now user_vote_timestamp
  let agreement_with_consensus : ℚ := 1 - |final_consensus - user_vote_value|
  temporal_weight * (agreement_with_consensus : ℝ)

/-- Python dict assignment `d[k] = v`: replace the value in place if the key
is present, append the pair otherwise. -/
def dictInsert {α : Type} (k : String) (v : α) :
    List (String × α) → List (String × α)
  | [] => [(k, v)]
  | (k', v') :: rest =>
      if k' = k then (k, v) :: rest else (k', v') :: dictInsert k v rest

/-- Python dict lookup `d[k]`. -/
def dictGet {α : Type} (k : String) : List (String × α) → Option α
  | [] => none
  | (k', v) :: rest => if k' = k then some v else dictGet k rest

/-- The `user_contributions` loop of `process` (lines 140-148): sources
carrying both a `user_id` and a `vote_value` write their contribution into
the dict under their `user_id`; a missing `timestamp` defaults to the
current time. -/
noncomputable def userContributions (now consensus_score : ℚ)
    (sources : List Source) : List (String × ℝ) :=
  sources.foldl (fun acc s =>
    match s.user_id, s.vote_value with
    | some uid, some vote =>
        dictInsert uid
          (calculate_user_contribution now (s.timestamp.getD now)
            consensus_score vote) acc
    | _, _ => acc) []

/-- Embeds `min(s.get('timestamp', current_time) for s in sources)` (line 136):
`none` models the `ValueError` Python's `min` raises on an empty sequence. -/
def minTimestamp (now : ℚ) (sources : List Source) : Option ℚ :=
  match sources.map (fun s => s.timestamp.getD now) with
  | [] => none
  | t :: ts => some (ts.foldl min t)

/-- The request payload: `content_id`, `sources` and the optional
`previous_consensus_score` read by `process`. -/
structure InputData where
  content_id : String
  sources : List Source
  previous_consensus_score : Option ℚ

/-- The fields of `ConsensusResult` (lines 30-40) that `process` computes. -/
structure ConsensusResultData where
  content_id : String
  sources : List Source
  consensus_score : ℚ
  reliability_score : ℚ
  validation_count : ℕ
  consensus_state : ConsensusState
  temporal_weight : ℝ
  user_contributions : List (String × ℝ)

/-- The shape of the `AlgorithmResponse` that `process` returns: either the
success payload or the error payload built in the `except` handler. -/
inductive AlgorithmResponseData where
  | success (result : ConsensusResultData)
  | errorResponse (e : PyError) (content_id : String)

/-- The body of the `try:` block of `process` (lines 117-174), in the order
the statements execute; any raised exception surfaces as `Except.error`. -/
noncomputable def processInner (stop : List String) (now : ℚ)
    (data : InputData) : Except PyError ConsensusResultData :=
  if data.content_id = "" then
    .error (.valueError "Missing or invalid content_id")
  else do
    let consensus_score ← calculate_consensus stop data.sources
    let reliability_score ← calculate_reliability data.sources
    let validation_count := data.sources.length
    let min_ts ← match minTimestamp now data.sources with
      | none => Except.error (.valueError "min() arg is an empty sequence")
      | some t => Except.ok t
    let temporal_weight := calculate_temporal_weight now min_ts
    let user_contribs := userContributions now consensus_score data.sources
    let consensus_state :=
      determine_consensus_state consensus_score data.previous_consensus_score
    .ok { content_id := data.content_id
          sources := data.sources
          consensus_score := consensus_score
          reliability_score := reliability_score
          validation_count := validation_count
          consensus_state := consensus_state
          temporal_weight := temporal_weight
          user_contributions := user_contribs }

/-- Embeds `process` (lines 115-185): the `try/except` wrapper — every exception
raised inside is caught and converted to an error response. -/
noncomputable def process (stop : List String) (now : ℚ)
    (data : InputData) : AlgorithmResponseData :=
  match processInner stop now data with
  | .ok r => .success r
  | .error e => .errorResponse e data.content_id

/-! ### Helper lemmas -/

lemma le_mean_of_forall_le {l : List ℚ} {a : ℚ} (hne : l ≠ [])
    (h : ∀ x ∈ l, a ≤ x) : a ≤ l.sum / l.length := by
  have hlen : 0 < (l.length : ℚ) := by exact_mod_cast List.length_pos.mpr hne
  rw [le_div_iff₀ hlen]
  calc a * l.length = l.length • a := by rw [nsmul_eq_mul, mul_comm]
    _ ≤ l.sum := List.card_nsmul_le_sum l a h

lemma mean_le_of_forall_le {l : List ℚ} {b : ℚ} (hb : 0 ≤ b)
    (h : ∀ x ∈ l, x ≤ b) : l.sum / l.length ≤ b := by
  rcases eq_or_ne l [] with rfl | hne
  · simpa using hb
  · have hlen : 0 < (l.length : ℚ) := by exact_mod_cast List.length_pos.mpr hne
    rw [div_le_iff₀ hlen]
    calc l.sum ≤ l.length • b := List.sum_le_card_nsmul l b h
      _ = b * l.length := by rw [nsmul_eq_mul, mul_comm]

lemma length_filter_lt_of_mem_not {α : Type} {l : List α} {p : α → Bool} {x : α}
    (hx : x ∈ l) (hpx : ¬ p x = true) : (l.filter p).length < l.length := by
  induction l with
  | nil => cases hx
  | cons a as ih =>
    rcases List.mem_cons.mp hx with rfl | hmem
    · rw [List.filter_cons_of_neg (by simpa using hpx)]
      exact Nat.lt_succ_of_le (List.length_filter_le _ _)
    · by_cases hpa : p a = true
      · rw [List.filter_cons_of_pos hpa]
        simpa using Nat.succ_lt_succ (ih hmem)
      · rw [List.filter_cons_of_neg (by simpa using hpa)]
        exact Nat.lt_succ_of_lt (ih hmem)

lemma term_agreement_scores_mem {term_lists : List (List String)} {x : ℚ}
    (h0 : term_lists ≠ []) (hx : x ∈ term_agreement_scores term_lists) :
    similarity_threshold ≤ x ∧ x ≤ 1 := by
  obtain ⟨hx_map, hx_p⟩ := List.mem_filter.mp hx
  refine ⟨of_decide_eq_true hx_p, ?_⟩
  obtain ⟨t, _, rfl⟩ := List.mem_map.mp hx_map
  have hlen : 0 < (term_lists.length : ℚ) := by
    exact_mod_cast List.length_pos.mpr h0
  rw [div_le_one hlen]
  exact_mod_cast List.length_filter_le _ _

lemma calculate_term_agreement_zero_or_Icc (term_lists : List (List String)) :
    calculate_term_agreement term_lists = 0 ∨
      (similarity_threshold ≤ calculate_term_agreement term_lists ∧
        calculate_term_agreement term_lists ≤ 1) := by
  unfold calculate_term_agreement
  split_ifs with h0 hs
  · exact Or.inl rfl
  · exact Or.inl rfl
  · right
    constructor
    · exact le_mean_of_forall_le hs
        (fun x hx => (term_agreement_scores_mem h0 hx).1)
    · exact mean_le_of_forall_le (by norm_num)
        (fun x hx => (term_agreement_scores_mem h0 hx).2)

lemma calculate_term_agreement_mem_Icc (term_lists : List (List String)) :
    0 ≤ calculate_term_agreement term_lists ∧
      calculate_term_agreement term_lists ≤ 1 := by
  rcases calculate_term_agreement_zero_or_Icc term_lists with h | ⟨h1, h2⟩
  · rw [h]; norm_num
  · refine ⟨le_trans ?_ h1, h2⟩
    norm_num [similarity_threshold]

lemma fact_agreements_le {stop : List String}
    {fact_lists : List (List String)} {p : ℕ × List String} {fact1 : String}
    (hp : p ∈ fact_lists.enum) :
    fact_agreements stop fact_lists.enum p.1 fact1 ≤ fact_lists.length - 1 := by
  have h1 : fact_agreements stop fact_lists.enum p.1 fact1 ≤
      (fact_lists.enum.filter (fun q => decide (q.1 ≠ p.1))).length :=
    List.length_filter_le _ _
  have h2 : (fact_lists.enum.filter
      (fun q => decide (q.1 ≠ p.1))).length < fact_lists.enum.length :=
    length_filter_lt_of_mem_not hp (by simp)
  have := Nat.lt_of_le_of_lt h1 h2
  rw [List.enum_length] at this
  omega

lemma fact_agreement_scores_mem {stop : List String}
    {fact_lists : List (List String)} {x : ℚ}
    (hx : x ∈ fact_agreement_scores stop fact_lists) : 0 ≤ x ∧ x ≤ 1 := by
  obtain ⟨l', hl', hxl'⟩ := List.mem_flatten.mp hx
  obtain ⟨p, hp, rfl⟩ := List.mem_map.mp hl'
  obtain ⟨fact1, _, hfact⟩ := List.mem_filterMap.mp hxl'
  split_ifs at hfact with hpos
  · injection hfact with hfact
    subst hfact
    have h3 : fact_agreements stop fact_lists.enum p.1 fact1 ≤
        fact_lists.length - 1 := fact_agreements_le hp
    have hden : 0 < ((fact_lists.length - 1 : ℕ) : ℚ) := by
      have : 0 < fact_lists.length - 1 := Nat.lt_of_lt_of_le hpos h3
      exact_mod_cast this
    constructor
    · positivity
    · rw [div_le_one hden]
      exact_mod_cast h3

lemma calculate_fact_agreement_mem_Icc (stop : List String)
    (fact_lists : List (List String)) :
    0 ≤ calculate_fact_agreement stop fact_lists ∧
      calculate_fact_agreement stop fact_lists ≤ 1 := by
  unfold calculate_fact_agreement
  split_ifs with h0 hs
  · norm_num
  · norm_num
  · constructor
    · exact le_mean_of_forall_le hs (fun x hx => (fact_agreement_scores_mem hx).1)
    · exact mean_le_of_forall_le (by norm_num)
        (fun x hx => (fact_agreement_scores_mem hx).2)

lemma source_weights_nonneg (t : String) : 0 ≤ source_weights t := by
  unfold source_weights
  split_ifs <;> norm_num

lemma source_weights_le_one (t : String) : source_weights t ≤ 1 := by
  unfold source_weights
  split_ifs <;> norm_num

lemma exceptMapM_congr_ok {α β : Type} {f : α → Except PyError β}
    {g : α → β} : ∀ (l : List α), (∀ a ∈ l, f a = .ok (g a)) →
    exceptMapM f l = .ok (l.map g) := by
  intro l
  induction l with
  | nil => intro _; rfl
  | cons a as ih =>
    intro h
    have ha := h a (List.mem_cons_self a as)
    have has := ih (fun x hx => h x (List.mem_cons_of_mem a hx))
    simp only [exceptMapM, ha, has, List.map_cons]
    rfl

lemma exceptMapM_ok_of_forall {α β : Type} {f : α → Except PyError β}
    {P : β → Prop} : ∀ (l : List α), (∀ a ∈ l, ∃ b, f a = .ok b ∧ P b) →
    ∃ bs, exceptMapM f l = .ok bs ∧ bs.length = l.length ∧ ∀ b ∈ bs, P b := by
  intro l
  induction l with
  | nil => intro _; exact ⟨[], rfl, rfl, by simp⟩
  | cons a as ih =>
    intro h
    obtain ⟨b, hb, hPb⟩ := h a (List.mem_cons_self a as)
    obtain ⟨bs, hbs, hlen, hPbs⟩ :=
      ih (fun x hx => h x (List.mem_cons_of_mem a hx))
    refine ⟨b :: bs, ?_, by simp [hlen], ?_⟩
    · simp only [exceptMapM, hb, hbs]
      rfl
    · intro x hx
      rcases List.mem_cons.mp hx with rfl | hx'
      · exact hPb
      · exact hPbs x hx'

lemma exceptMapM_error_of_exists {α β : Type} {f : α → Except PyError β} :
    ∀ (l : List α), (∃ a ∈ l, ∀ b, f a ≠ .ok b) →
    ∃ e, exceptMapM f l = .error e := by
  intro l
  induction l with
  | nil => rintro ⟨a, ha, _⟩; cases ha
  | cons a as ih =>
    rintro ⟨x, hx, hfx⟩
    cases hfa : f a with
    | error e =>
      refine ⟨e, ?_⟩
      simp only [exceptMapM, hfa]
      rfl
    | ok b =>
      rcases List.mem_cons.mp hx with rfl | hx'
      · exact absurd hfa (hfx b)
      · obtain ⟨e, he⟩ := ih ⟨x, hx', hfx⟩
        refine ⟨e, ?_⟩
        simp only [exceptMapM, hfa, he]
        rfl

/-- The claim's per-source reliability formula (spec §4.2):
`0.4 * base_weight(source_type) + 0.3 * quality_score +
0.3 * evidence_strength`, the optional analysis fields defaulting to
`0.5`.  Sources missing the structurally required keys are outside the
claim's scope and mapped to `0`. -/
def reliabilitySpec (s : Source) : ℚ :=
  match s.source, s.content with
  | some st, some c =>
      4/10 * source_weights st +
        3/10 * (c.analysis.bind Analysis.quality_score).getD (1/2) +
        3/10 * ((c.analysis.bind Analysis.evidence).bind
          Evidence.strength_score).getD (1/2)
  | _, _ => 0

lemma reliability_of_eq_spec {s : Source} (h1 : s.source.isSome)
    (h2 : s.content.isSome) : reliability_of s = .ok (reliabilitySpec s) := by
  obtain ⟨st, hst⟩ := Option.isSome_iff_exists.mp h1
  obtain ⟨c, hc⟩ := Option.isSome_iff_exists.mp h2
  simp only [reliability_of, reliabilitySpec, Source.getSourceType,
    Source.getContent, hst, hc]
  rfl

lemma reliabilitySpec_mem_Icc {s : Source}
    (hq : ∀ c, s.content = some c →
      (∀ q, c.analysis.bind Analysis.quality_score = some q → 0 ≤ q ∧ q ≤ 1) ∧
      (∀ e, (c.analysis.bind Analysis.evidence).bind Evidence.strength_score =
        some e → 0 ≤ e ∧ e ≤ 1)) :
    0 ≤ reliabilitySpec s ∧ reliabilitySpec s ≤ 1 := by
  unfold reliabilitySpec
  cases hsrc : s.source with
  | none => norm_num
  | some st =>
    cases hc : s.content with
    | none => norm_num
    | some c =>
      obtain ⟨hqq, hee⟩ := hq c hc
      have hbase₀ := source_weights_nonneg st
      have hbase₁ := source_weights_le_one st
      have hq' : 0 ≤ (c.analysis.bind Analysis.quality_score).getD (1/2) ∧
          (c.analysis.bind Analysis.quality_score).getD (1/2) ≤ 1 := by
        cases hv : c.analysis.bind Analysis.quality_score with
        | none => norm_num
        | some q => simpa using hqq q hv
      have he' : 0 ≤ ((c.analysis.bind Analysis.evidence).bind
            Evidence.strength_score).getD (1/2) ∧
          ((c.analysis.bind Analysis.evidence).bind
            Evidence.strength_score).getD (1/2) ≤ 1 := by
        cases hv : (c.analysis.bind Analysis.evidence).bind
            Evidence.strength_score with
        | none => norm_num
        | some e => simpa using hee e hv
      constructor
      · have := hq'.1; have := he'.1; positivity
      · nlinarith [hq'.2, he'.2]

/-! ### Claim theorems -/

/-- C1: the claim says that with `previous_score ≥ 0.8` and
`current_score < 0.4` the state machine returns `REVOKED`.  The code
checks `current_score < 0.6` (→ CONTESTED) *before* `current_score < 0.4`
(→ REVOKED), so at `previous_score = 0.9`, `current_score = 0.3` it
returns `CONTESTED`; the `REVOKED` branch is unreachable, contradicting
the enum's own documentation ("REVOKED: Was established, now < 40%"). -/
theorem established_drop_below_low_yields_contested :
    determine_consensus_state (3/10) (some (9/10)) =
      ConsensusState.contested := by
  norm_num [determine_consensus_state, validation_threshold_high,
    validation_threshold_medium]

/-- C4: when a previous score is known but below the high threshold,
`_determine_consensus_state` coincides with pure thresholding of the
current score (the no-history branch); consequently `CONTESTED` or
`REVOKED` can only be returned when the previous score is present and at
least `0.8`. -/
theorem below_high_previous_is_pure_thresholding :
    (∀ current prev : ℚ, prev < validation_threshold_high →
        determine_consensus_state current (some prev) =
          determine_consensus_state current none) ∧
    (∀ (current : ℚ) (po : Option ℚ),
        determine_consensus_state current po = ConsensusState.contested ∨
          determine_consensus_state current po = ConsensusState.revoked →
        ∃ prev, po = some prev ∧ validation_threshold_high ≤ prev) := by
  constructor
  · intro current prev h
    simp [determine_consensus_state, not_le.mpr h]
  · intro current po h
    cases po with
    | none =>
      exfalso
      simp only [determine_consensus_state] at h
      split_ifs at h <;> simp_all
    | some prev =>
      simp only [determine_consensus_state] at h
      split_ifs at h with hp
      all_goals first
        | exact ⟨prev, rfl, hp⟩
        | simp_all

/-- Witness for C4 at concrete inputs: previous score `0.5` (below high)
yields the same state as no history, and a `CONTESTED` outcome at current
score `0.5` with previous score `0.9` certifies a previous score at least
`0.8`. -/
theorem below_high_previous_is_pure_thresholding_witness :
    determine_consensus_state (1/2) (some (1/2)) =
        determine_consensus_state (1/2) none ∧
      ∃ prev, (some (9/10 : ℚ)) = some prev ∧ validation_threshold_high ≤ prev :=
  ⟨below_high_previous_is_pure_thresholding.1 (1/2) (1/2)
      (by norm_num [validation_threshold_high]),
    below_high_previous_is_pure_thresholding.2 (1/2) (some (9/10))
      (Or.inl (by norm_num [determine_consensus_state,
        validation_threshold_high, validation_threshold_medium]))⟩

/-- C10: `_calculate_term_agreement` returns either exactly `0` or a value
in `[0.7, 1]`: each per-term fraction counts a term at most once per
source, so it is at most `1`, and only fractions reaching the `0.7`
threshold enter the mean; no return value lies strictly between `0` and
`0.7`. -/
theorem term_agreement_zero_or_above_threshold
    (term_lists : List (List String)) :
    calculate_term_agreement term_lists = 0 ∨
      (7/10 ≤ calculate_term_agreement term_lists ∧
        calculate_term_agreement term_lists ≤ 1) := by
  have h := calculate_term_agreement_zero_or_Icc term_lists
  unfold similarity_threshold at h
  exact h

/-- C9: `_calculate_fact_similarity` is total: it returns `0` whenever
either fact's stop-word-free word set is empty, and otherwise the Jaccard
ratio intersection-size over union-size, whose denominator is then
positive, so no division by zero ever occurs. -/
theorem fact_similarity_total_jaccard (stop : List String)
    (fact1 fact2 : String) :
    ((word_set stop fact1 = ∅ ∨ word_set stop fact2 = ∅) →
        calculate_fact_similarity stop fact1 fact2 = 0) ∧
    (word_set stop fact1 ≠ ∅ → word_set stop fact2 ≠ ∅ →
        calculate_fact_similarity stop fact1 fact2 =
            ((word_set stop fact1 ∩ word_set stop fact2).card : ℚ) /
              ((word_set stop fact1 ∪ word_set stop fact2).card : ℚ) ∧
          0 < (word_set stop fact1 ∪ word_set stop fact2).card) := by
  constructor
  · intro h
    simp only [calculate_fact_similarity]
    rw [if_pos h]
  · intro h1 h2
    refine ⟨?_, ?_⟩
    · simp only [calculate_fact_similarity]
      rw [if_neg (by simp [h1, h2])]
    · exact Finset.card_pos.mpr
        (Finset.Nonempty.mono Finset.subset_union_left
          (Finset.nonempty_iff_ne_empty.mpr h1))

/-- Witness for C9: the empty string has an empty word set, so similarity
with `"cat"` is `0`; `"cat dog"` vs `"cat"` takes the Jaccard branch with a
positive union size. -/
theorem fact_similarity_total_jaccard_witness :
    calculate_fact_similarity [] "" "cat" = 0 ∧
      (calculate_fact_similarity [] "cat dog" "cat" =
          ((word_set [] "cat dog" ∩ word_set [] "cat").card : ℚ) /
            ((word_set [] "cat dog" ∪ word_set [] "cat").card : ℚ) ∧
        0 < (word_set [] "cat dog" ∪ word_set [] "cat").card) :=
  ⟨(fact_similarity_total_jaccard [] "" "cat").1 (Or.inl (by decide)),
    (fact_similarity_total_jaccard [] "cat dog" "cat").2
      (by decide) (by decide)⟩

/-- C8: `_calculate_temporal_weight` equals
`2 ^ (-(now - timestamp) / (half_life_days * 86400))`, returns `1` at age
zero, and is strictly decreasing in age: a strictly smaller age gives a
strictly larger weight. -/
theorem temporal_weight_formula_one_and_strict_mono :
    (∀ now ts : ℚ, calculate_temporal_weight now ts =
        (2 : ℝ) ^ (-((now : ℝ) - (ts : ℝ)) / ((half_life_days : ℝ) * 86400))) ∧
    (∀ now : ℚ, calculate_temporal_weight now now = 1) ∧
    (∀ now t1 t2 : ℚ, now - t1 < now - t2 →
        calculate_temporal_weight now t2 < calculate_temporal_weight now t1) := by
  have hformula : ∀ now ts : ℚ, calculate_temporal_weight now ts =
      (2 : ℝ) ^ (-((now : ℝ) - (ts : ℝ)) / ((half_life_days : ℝ) * 86400)) := by
    intro now ts
    unfold calculate_temporal_weight
    push_cast
    ring_nf
  refine ⟨hformula, ?_, ?_⟩
  · intro now
    rw [hformula]
    norm_num
  · intro now t1 t2 h
    rw [hformula, hformula]
    rw [Real.rpow_lt_rpow_left_iff (by norm_num : (1 : ℝ) < 2)]
    have hhl : (0 : ℝ) < (half_life_days : ℝ) * 86400 := by
      norm_num [half_life_days]
    rw [div_lt_div_iff_of_pos_right hhl]
    have : ((now - t1 : ℚ) : ℝ) < ((now - t2 : ℚ) : ℝ) := by exact_mod_cast h
    push_cast at this ⊢
    linarith

/-- C6: for a non-empty source list with the structural keys present,
`_calculate_reliability` returns exactly the arithmetic mean over sources
of `0.4 * base_weight + 0.3 * quality_score + 0.3 * evidence_strength`
(optional scores defaulting to `0.5`), with the fixed base-weight table
and default `0.5` for unknown source types; term/fact agreement plays no
role in the value. -/
theorem reliability_is_mean_of_blend (sources : List Source)
    (hne : sources ≠ [])
    (hkeys : ∀ s ∈ sources, s.source.isSome ∧ s.content.isSome) :
    calculate_reliability sources =
        .ok ((sources.map reliabilitySpec).sum / (sources.length : ℚ)) ∧
      source_weights "official_docs" = 1 ∧
      source_weights "research_paper" = 9/10 ∧
      source_weights "technical_blog" = 8/10 ∧
      source_weights "community_wiki" = 7/10 ∧
      source_weights "forum_post" = 6/10 ∧
      source_weights "social_media" = 4/10 ∧
      ∀ t : String, t ∉ ["official_docs", "research_paper", "technical_blog",
          "community_wiki", "forum_post", "social_media"] →
        source_weights t = 1/2 := by
  refine ⟨?_, by simp [source_weights], by simp [source_weights],
    by simp [source_weights], by simp [source_weights],
    by simp [source_weights], by simp [source_weights], ?_⟩
  · have hmap := exceptMapM_congr_ok sources
      (fun s hs => reliability_of_eq_spec (hkeys s hs).1 (hkeys s hs).2)
    unfold calculate_reliability
    rw [if_neg hne, hmap]
    show Except.ok ((sources.map reliabilitySpec).sum /
        ((sources.map reliabilitySpec).length : ℚ)) = _
    rw [List.length_map]
  · intro t ht
    simp only [List.mem_cons, List.not_mem_nil, or_false, not_or] at ht
    obtain ⟨h1, h2, h3, h4, h5, h6⟩ := ht
    simp [source_weights, h1, h2, h3, h4, h5, h6]

/-- A concrete content record with full analysis scores, for witnesses. -/
def witnessContentA : Content :=
  { text := none,
    analysis := some { quality_score := some (8/10),
                       evidence := some { strength_score := some (9/10) } } }

/-- A concrete source with full analysis scores, for witnesses. -/
def witnessSourceA : Source :=
  { source := some "official_docs",
    content := some witnessContentA,
    timestamp := none,
    user_id := none,
    vote_value := none }

/-- A concrete content record without analysis scores, for witnesses. -/
def witnessContentB : Content :=
  { text := none, analysis := none }

/-- A concrete source without analysis scores, for witnesses. -/
def witnessSourceB : Source :=
  { source := some "forum_post",
    content := some witnessContentB,
    timestamp := none,
    user_id := none,
    vote_value := none }

/-- Witness for C6 on a concrete two-source list. -/
theorem reliability_is_mean_of_blend_witness :
    calculate_reliability [witnessSourceA, witnessSourceB] =
        .ok (([witnessSourceA, witnessSourceB].map reliabilitySpec).sum /
          (([witnessSourceA, witnessSourceB] : List Source).length : ℚ)) ∧
      source_weights "official_docs" = 1 ∧
      source_weights "research_paper" = 9/10 ∧
      source_weights "technical_blog" = 8/10 ∧
      source_weights "community_wiki" = 7/10 ∧
      source_weights "forum_post" = 6/10 ∧
      source_weights "social_media" = 4/10 ∧
      ∀ t : String, t ∉ ["official_docs", "research_paper", "technical_blog",
          "community_wiki", "forum_post", "social_media"] →
        source_weights t = 1/2 :=
  reliability_is_mean_of_blend [witnessSourceA, witnessSourceB]
    (by simp)
    (by intro s hs
        fin_cases hs <;> decide)

/-- C5: for a non-empty source list with structural keys present and
optional quality/evidence scores within `[0,1]`, both the consensus score
and the reliability score lie in `[0,1]`; the `min 1 _` cap keeps the
weighted product from exceeding `1`. -/
theorem consensus_and_reliability_within_unit_interval (stop : List String)
    (sources : List Source) (hne : sources ≠ [])
    (hkeys : ∀ s ∈ sources, s.source.isSome ∧ s.content.isSome)
    (hopt : ∀ s ∈ sources, ∀ c, s.content = some c →
      (∀ q, c.analysis.bind Analysis.quality_score = some q →
        0 ≤ q ∧ q ≤ 1) ∧
      (∀ e, (c.analysis.bind Analysis.evidence).bind Evidence.strength_score =
        some e → 0 ≤ e ∧ e ≤ 1)) :
    (∃ c, calculate_consensus stop sources = .ok c ∧ 0 ≤ c ∧ c ≤ 1) ∧
    (∃ r, calculate_reliability sources = .ok r ∧ 0 ≤ r ∧ r ≤ 1) := by
  constructor
  · obtain ⟨infos, hinfos, hlen, hP⟩ :=
      exceptMapM_ok_of_forall (f := source_info_of stop)
        (P := fun b => 0 ≤ b.2.2 ∧ b.2.2 ≤ 1) sources
        (by
          intro s hs
          obtain ⟨h1, h2⟩ := hkeys s hs
          obtain ⟨st, hst⟩ := Option.isSome_iff_exists.mp h1
          obtain ⟨c, hc⟩ := Option.isSome_iff_exists.mp h2
          refine ⟨(extract_key_terms stop (c.text.getD ""),
            extract_facts (c.text.getD ""), source_weights st), ?_, ?_⟩
          · simp only [source_info_of, Source.getContent,
              Source.getSourceType, hst, hc]
            rfl
          · exact ⟨source_weights_nonneg st, source_weights_le_one st⟩)
    have hinfos_ne : infos ≠ [] := by
      intro h
      rw [h] at hlen
      exact hne (List.length_eq_zero.mp hlen.symm)
    set ta := calculate_term_agreement (infos.map (fun i => i.1)) with hta
    set fa := calculate_fact_agreement stop (infos.map (fun i => i.2.1))
      with hfa
    set weights := infos.map (fun i => i.2.2) with hw
    have hta_b := calculate_term_agreement_mem_Icc (infos.map (fun i => i.1))
    have hfa_b := calculate_fact_agreement_mem_Icc stop
      (infos.map (fun i => i.2.1))
    have hw_ne : weights ≠ [] := by
      simp [hw, List.map_eq_nil_iff, hinfos_ne]
    have hw_mem : ∀ x ∈ weights, 0 ≤ x ∧ x ≤ 1 := by
      intro x hx
      obtain ⟨i, hi, rfl⟩ := List.mem_map.mp hx
      exact hP i hi
    have havg₀ : 0 ≤ weights.sum / weights.length :=
      le_mean_of_forall_le hw_ne (fun x hx => (hw_mem x hx).1)
    have havg₁ : weights.sum / weights.length ≤ 1 :=
      mean_le_of_forall_le (by norm_num) (fun x hx => (hw_mem x hx).2)
    have hraw₀ : 0 ≤ 4/10 * ta + 6/10 * fa := by
      have := hta_b.1; have := hfa_b.1; positivity
    have hraw₁ : 4/10 * ta + 6/10 * fa ≤ 1 := by
      nlinarith [hta_b.2, hfa_b.2]
    have hv : (4/10 * ta + 6/10 * fa) * weights.sum / weights.length =
        (4/10 * ta + 6/10 * fa) * (weights.sum / weights.length) :=
      mul_div_assoc _ _ _
    refine ⟨min 1 ((4/10 * ta + 6/10 * fa) * weights.sum / weights.length),
      ?_, ?_, min_le_left _ _⟩
    · unfold calculate_consensus
      rw [if_neg hne, hinfos]
      rfl
    · refine le_min (by norm_num) ?_
      rw [hv]
      exact mul_nonneg hraw₀ havg₀
  · have hmap := exceptMapM_congr_ok sources
      (fun s hs => reliability_of_eq_spec (hkeys s hs).1 (hkeys s hs).2)
    have hmem : ∀ x ∈ sources.map reliabilitySpec, 0 ≤ x ∧ x ≤ 1 := by
      intro x hx
      obtain ⟨s, hs, rfl⟩ := List.mem_map.mp hx
      exact reliabilitySpec_mem_Icc (hopt s hs)
    have hne' : sources.map reliabilitySpec ≠ [] := by
      simp [List.map_eq_nil_iff, hne]
    refine ⟨(sources.map reliabilitySpec).sum /
        ((sources.map reliabilitySpec).length : ℚ), ?_, ?_, ?_⟩
    · unfold calculate_reliability
      rw [if_neg hne, hmap]
      rfl
    · exact le_mean_of_forall_le hne' (fun x hx => (hmem x hx).1)
    · exact mean_le_of_forall_le (by norm_num) (fun x hx => (hmem x hx).2)

/-- Witness for C5 on a concrete two-source list with in-range optional
scores. -/
theorem consensus_and_reliability_within_unit_interval_witness :
    (∃ c, calculate_consensus [] [witnessSourceA, witnessSourceB] = .ok c ∧
      0 ≤ c ∧ c ≤ 1) ∧
    (∃ r, calculate_reliability [witnessSourceA, witnessSourceB] = .ok r ∧
      0 ≤ r ∧ r ≤ 1) :=
  consensus_and_reliability_within_unit_interval [] _
    (by simp)
    (by intro s hs
        fin_cases hs <;> decide)
    (by intro s hs c hc
        fin_cases hs
        · have hc' := Option.some.inj
            (show some witnessContentA = some c from hc)
          subst hc'
          constructor
          · intro q hq
            have hq' := Option.some.inj
              (show some ((8 : ℚ)/10) = some q from hq)
            rw [← hq']
            norm_num
          · intro e he
            have he' := Option.some.inj
              (show some ((9 : ℚ)/10) = some e from he)
            rw [← he']
            norm_num
        · have hc' := Option.some.inj
            (show some witnessContentB = some c from hc)
          subst hc'
          exact ⟨fun q hq =>
              Option.noConfusion (show (none : Option ℚ) = some q from hq),
            fun e he =>
              Option.noConfusion (show (none : Option ℚ) = some e from he)⟩)

/-- Witness for C8's monotonicity at concrete inputs: age `0` versus age
`1` (now `0`, timestamps `0` and `-1`). -/
theorem temporal_weight_witness :
    calculate_temporal_weight 0 0 = 1 ∧
      (0 : ℚ) - 0 < 0 - (-1) ∧
      calculate_temporal_weight 0 (-1) < calculate_temporal_weight 0 0 :=
  ⟨temporal_weight_formula_one_and_strict_mono.2.1 0, by norm_num,
    temporal_weight_formula_one_and_strict_mono.2.2 0 0 (-1) (by norm_num)⟩

/-- C2: the empty-sources contract.  `_calculate_consensus` and
`_calculate_reliability` both return `0.0` for `sources = []`, but
`process` evaluates `min(...)` over the empty timestamp sequence, which
raises `ValueError`; the exception is caught and turned into an error
response, so the claimed normal result (with `temporal_weight = 1.0`) is
never produced. -/
theorem empty_sources_returns_error_response :
    calculate_consensus [] [] = .ok 0 ∧
    calculate_reliability [] = .ok 0 ∧
    processInner [] 0
        { content_id := "content-1", sources := [],
          previous_consensus_score := none } =
      .error (.valueError "min() arg is an empty sequence") ∧
    process [] 0
        { content_id := "content-1", sources := [],
          previous_consensus_score := none } =
      .errorResponse (.valueError "min() arg is an empty sequence")
        "content-1" := by
  refine ⟨rfl, rfl, ?_, ?_⟩ <;> rfl

/-- A source whose dict has no `content` key, for the error-handling
claims. -/
def missingContentSource : Source :=
  { source := some "forum_post", content := none, timestamp := none,
    user_id := none, vote_value := none }

/-- A request whose single source is missing its `content` key. -/
def missingContentInput : InputData :=
  { content_id := "content-1", sources := [missingContentSource],
    previous_consensus_score := none }

/-- C3 counterexample: on a source list whose one source misses its
`content` key, the inner computation raises `KeyError('content')`, but
`process` catches it and *returns* an error response — the error does not
propagate to the caller as a raised exception, contrary to the claim's
propagation policy. -/
theorem missing_content_error_swallowed_cex :
    processInner [] 0 missingContentInput = .error (.keyError "content") ∧
    process [] 0 missingContentInput =
      .errorResponse (.keyError "content") "content-1" := by
  refine ⟨?_, ?_⟩ <;> rfl

lemma calculate_consensus_error_of_missing_content (stop : List String)
    {sources : List Source} {s : Source} (hs : s ∈ sources)
    (hcont : s.content = none) :
    ∃ e, calculate_consensus stop sources = .error e := by
  have hne : sources ≠ [] := by
    intro hnil
    rw [hnil] at hs
    cases hs
  obtain ⟨e, hmap⟩ := exceptMapM_error_of_exists (f := source_info_of stop)
    sources ⟨s, hs, by
      intro b hb
      rw [show source_info_of stop s = .error (.keyError "content") from by
        unfold source_info_of Source.getContent
        rw [hcont]
        rfl] at hb
      cases hb⟩
  refine ⟨e, ?_⟩
  unfold calculate_consensus
  rw [if_neg hne, hmap]
  rfl

/-- C3 amended: a source missing its `content` key makes the whole inner
computation fail with an exception (no partial result is built), but
`process` catches every exception and returns an error response carrying
it, rather than propagating the raised error to the caller. -/
theorem missing_content_fails_whole_computation (stop : List String)
    (now : ℚ) (data : InputData)
    (h : ∃ s ∈ data.sources, s.content = none) :
    ∃ e, processInner stop now data = .error e ∧
      process stop now data = .errorResponse e data.content_id := by
  obtain ⟨e, he⟩ : ∃ e, processInner stop now data = .error e := by
    by_cases hcid : data.content_id = ""
    · refine ⟨.valueError "Missing or invalid content_id", ?_⟩
      unfold processInner
      rw [if_pos hcid]
    · obtain ⟨s, hs, hcont⟩ := h
      obtain ⟨e, hcons⟩ := calculate_consensus_error_of_missing_content
        stop hs hcont
      refine ⟨e, ?_⟩
      unfold processInner
      rw [if_neg hcid, hcons]
      rfl
  refine ⟨e, he, ?_⟩
  unfold process
  rw [he]

/-- Witness for C3's amended statement at the concrete failing input. -/
theorem missing_content_fails_whole_computation_witness :
    ∃ e, processInner [] 0 missingContentInput = .error e ∧
      process [] 0 missingContentInput =
        .errorResponse e missingContentInput.content_id :=
  missing_content_fails_whole_computation [] 0 missingContentInput
    ⟨missingContentSource, by simp [missingContentInput], rfl⟩

lemma dictGet_dictInsert_self {α : Type} (k : String) (v : α) :
    ∀ m : List (String × α), dictGet k (dictInsert k v m) = some v := by
  intro m
  induction m with
  | nil => simp [dictInsert, dictGet]
  | cons p rest ih =>
    cases p with
    | mk k' v' =>
      by_cases h : k' = k
      · simp [dictInsert, dictGet, h]
      · simp [dictInsert, dictGet, h, ih]

lemma dictGet_dictInsert_ne {α : Type} {k k' : String} (h : k' ≠ k) (v : α) :
    ∀ m : List (String × α), dictGet k (dictInsert k' v m) = dictGet k m := by
  intro m
  induction m with
  | nil => simp [dictInsert, dictGet, h]
  | cons p rest ih =>
    cases p with
    | mk k'' v'' =>
      by_cases h2 : k'' = k'
      · subst h2
        simp [dictInsert, dictGet, h]
      · have h' : k ≠ k' := Ne.symm h
        by_cases h3 : k'' = k
        · simp [dictInsert, dictGet, h2, h3, h']
        · simp [dictInsert, dictGet, h2, h3, h', ih]

/-- The last source in input order that carries the given `user_id`
together with a `vote_value`: its dict write is the surviving one. -/
def lastVoteOf (uid : String) (sources : List Source) : Option Source :=
  sources.reverse.find?
    (fun s => s.user_id == some uid && s.vote_value.isSome)

lemma userContributions_foldl_aux (now c : ℚ) (uid : String) :
    ∀ (sources : List Source) (acc : List (String × ℝ)),
      dictGet uid (sources.foldl (fun acc s =>
        match s.user_id, s.vote_value with
        | some u, some vote =>
            dictInsert u
              (calculate_user_contribution now (s.timestamp.getD now) c vote)
              acc
        | _, _ => acc) acc) =
      (lastVoteOf uid sources).elim (dictGet uid acc)
        (fun s => some (calculate_user_contribution now
          (s.timestamp.getD now) c (s.vote_value.getD 0))) := by
  intro sources
  induction sources with
  | nil =>
    intro acc
    simp [lastVoteOf]
  | cons s ss ih =>
    intro acc
    rw [List.foldl_cons, ih]
    unfold lastVoteOf
    rw [List.reverse_cons, List.find?_append]
    cases hfind : ss.reverse.find?
        (fun s => s.user_id == some uid && s.vote_value.isSome) with
    | some s' => simp [Option.or, hfind]
    | none =>
      simp only [hfind, Option.or]
      cases hu : s.user_id with
      | none =>
        have hps : (s.user_id == some uid && s.vote_value.isSome) = false := by
          simp [hu]
        simp [List.find?, hps, hu]
      | some u =>
        cases hv : s.vote_value with
        | none =>
          have hps : (s.user_id == some uid && s.vote_value.isSome) = false := by
            simp [hu, hv]
          simp [List.find?, hps, hu, hv]
        | some vote =>
          by_cases huid : u = uid
          · subst huid
            have hps : (s.user_id == some u && s.vote_value.isSome) = true := by
              simp [hu, hv]
            simp [List.find?, hps, hu, hv, dictGet_dictInsert_self]
          · have hps : (s.user_id == some uid && s.vote_value.isSome) = false := by
              simp [hu, hv, huid]
            have hbeq : (u == uid) = false := by simp [huid]
            simp [List.find?, hps, hu, hv, dictGet_dictInsert_ne huid, hbeq]

/-- C7: each source carrying both a `user_id` and a `vote_value` writes
`decay(vote timestamp) * (1 - |consensus - vote|)` under its `user_id`;
with several votes from the same user in one invocation, the entry equals
the contribution of the *last* such source in input order. -/
theorem user_contributions_last_write_wins (now c : ℚ)
    (sources : List Source) (uid : String) :
    dictGet uid (userContributions now c sources) =
      (lastVoteOf uid sources).map
        (fun s => calculate_temporal_weight now (s.timestamp.getD now) *
          ((1 - |c - s.vote_value.getD 0| : ℚ) : ℝ)) := by
  unfold userContributions
  rw [userContributions_foldl_aux]
  cases hfind : lastVoteOf uid sources with
  | none => rfl
  | some s => rfl

end BabelConsensus
